import Mathlib

/-!
Shallow embedding of `src/scripts/osm_graph_loader.py`, centred on
`graph_to_json` (lines 199-326) and the CLI driver `main` (lines 329-383).

Modelling choices:
* Python floats (coordinates, lengths) are embedded as rationals `ℚ`; all
  arithmetic performed by the script (sums, division by a count, squared
  differences, comparisons) is generic arithmetic, no rounding-sensitive
  operation occurs.
* A NetworkX `MultiDiGraph` is embedded as an iteration-ordered list of
  nodes `(id, attrs)` and directed edges `(u, v, key, attrs)`; node ids are
  `Nat` (OSM ids are non-negative integers, and `sorted([u, v])` is the
  ordered pair `(min, max)`).
* Heterogeneously typed edge attributes (`oneway`, `osmid`, `name`) are
  embedded as small inductive types with one constructor per Python type
  the code distinguishes via `isinstance`, plus `Option` for absence.
* Dictionary access `d[k]` that can raise `KeyError` is embedded as an
  `Option`-returning lookup; a raised exception propagates as `none`.
-/

namespace OsmLoader

/-- One element of a merged `oneway` list.  The Python code only
distinguishes `bool` and `str` elements (`isinstance` checks at
lines 265-266); any element of another type (int, nested list, None, ...)
falls through both checks. -/
inductive OnewayElem where
  | boolVal (b : Bool)
  | strVal (s : String)
  | otherVal
deriving DecidableEq, Repr

/-- The raw `oneway` attribute value: a bool, a string, a list (after
simplification merged several ways), or a value of any other type. -/
inductive OnewayAttr where
  | boolVal (b : Bool)
  | strVal (s : String)
  | listVal (xs : List OnewayElem)
  | otherVal
deriving DecidableEq, Repr

/-- The raw `osmid` attribute value: a single id or a list of ids. -/
inductive OsmidAttr where
  | scalar (x : Int)
  | listVal (xs : List Int)
deriving DecidableEq, Repr

/-- The raw `name` attribute value: a string or a list of strings. -/
inductive NameAttr where
  | strVal (s : String)
  | listVal (xs : List String)
deriving DecidableEq, Repr

/-- Node attribute dictionary: `x` (longitude) and `y` (latitude) may each
be absent (the script defends against that with `.get(..., 0.0)` when
projecting nodes, lines 217-218, but not in the geometry branch,
lines 238-243). -/
structure NodeData where
  x : Option ℚ
  y : Option ℚ
deriving DecidableEq, Repr

/-- Edge attribute dictionary, keys consumed by `graph_to_json`:
`osmid`, `length`, `name`, `oneway`, `geometry`.  A shapely `LineString`
geometry is its coordinate sequence, stored in `(lon, lat)` order. -/
structure EdgeData where
  osmid : Option OsmidAttr
  length : Option ℚ
  name : Option NameAttr
  oneway : Option OnewayAttr
  geometry : Option (List (ℚ × ℚ))
deriving DecidableEq, Repr

/-- Edge attribute dictionary with every key absent. -/
def EdgeData.empty : EdgeData :=
  ⟨none, none, none, none, none⟩

/-- A directed multigraph edge: `(u, v, key, data)` as yielded by
`G.edges(keys=True, data=True)`. -/
abbrev Edge := Nat × Nat × Nat × EdgeData

/-- A NetworkX `MultiDiGraph`, as the iteration-ordered node and edge
lists the script consumes. -/
structure Graph where
  nodes : List (Nat × NodeData)
  edges : List Edge
deriving DecidableEq, Repr

/-- `G.nodes[n]`: first (unique, in real data) binding for node id `n`;
`none` models a `KeyError`. -/
def lookupNode (G : Graph) (n : Nat) : Option NodeData :=
  (G.nodes.find? (fun p => p.1 == n)).map Prod.snd

/-- An output node record `{"id": ..., "lat": ..., "lon": ...}`. -/
structure JsonNode where
  id : String
  lat : ℚ
  lon : ℚ
deriving DecidableEq, Repr

/-- An output segment record (lines 274-283). -/
structure Segment where
  id : String
  startNodeId : String
  endNodeId : String
  lengthMeters : ℚ
  name : Option String
  osmWayIds : List Int
  geometry : List (ℚ × ℚ)
  oneway : Bool
deriving DecidableEq, Repr

/-- An output full-graph edge record `{"u": ..., "v": ..., "length": ...}`
(lines 313-318). -/
structure FullEdge where
  u : String
  v : String
  length : ℚ
deriving DecidableEq, Repr

/-- The whole output document (lines 320-326). -/
structure Output where
  nodes : List JsonNode
  segments : List Segment
  startingLocation : Option JsonNode
  fullGraphNodes : List JsonNode
  fullGraphEdges : List FullEdge
deriving DecidableEq, Repr

/-- `f"node_{node_id}"`. -/
def nodeId (n : Nat) : String :=
  "node_" ++ toString n

/-- `f"seg_{u}_{v}_{key}"`. -/
def segId (u v k : Nat) : String :=
  "seg_" ++ toString u ++ "_" ++ toString v ++ "_" ++ toString k

/-- Python's `str.lower()`, as a character-wise map (the vocabulary it is
compared against is plain ASCII). -/
def pyLower (s : String) : String :=
  ⟨s.data.map Char.toLower⟩

/-- `o.lower() in ('yes', 'true', '1', '-1')` (lines 266, 270). -/
def onewayVocab (s : String) : Bool :=
  pyLower s == "yes" || pyLower s == "true" || pyLower s == "1" || pyLower s == "-1"

/-- The per-element test inside `any(...)` (lines 264-268):
`(isinstance(o, bool) and o) or (isinstance(o, str) and o.lower() in ...)`. -/
def onewayElemTrue : OnewayElem → Bool
  | .boolVal b => b
  | .strVal s => onewayVocab s
  | .otherVal => false

/-- One-way normalization (lines 259-272): absent defaults to `False`
via `.get('oneway', False)`; a list is the disjunction of its elements'
tests; a string is tested against the vocabulary; a bool is kept; any
other type becomes `False`. -/
def normalizeOneway : Option OnewayAttr → Bool
  | none => false
  | some (.boolVal b) => b
  | some (.strVal s) => onewayVocab s
  | some (.listVal xs) => xs.any onewayElemTrue
  | some .otherVal => false

/-- Way-id normalization (lines 246-248): `data.get('osmid', [])`
followed by wrapping non-list values in a singleton list.  An absent
attribute yields the default `[]`, which already is a list and is kept. -/
def normalizeOsmid : Option OsmidAttr → List Int
  | none => []
  | some (.scalar x) => [x]
  | some (.listVal xs) => xs

/-- Name normalization (lines 251-253): `data.get('name')`, then a list
is replaced by its first element, or `None` when the list is empty. -/
def normalizeName : Option NameAttr → Option String
  | none => none
  | some (.strVal s) => some s
  | some (.listVal []) => none
  | some (.listVal (s :: _)) => some s

/-- Geometry extraction (lines 231-243).  With an explicit geometry the
`(lon, lat)` coordinates are flipped to `(lat, lon)` preserving order;
otherwise the two endpoints are looked up with raw indexing
(`G_simplified.nodes[u]['y']` etc.), which raises — modelled as `none` —
when the node or its coordinate attribute is missing. -/
def edgeGeometry (G : Graph) (u v : Nat) (d : EdgeData) : Option (List (ℚ × ℚ)) :=
  match d.geometry with
  | some coords => some (coords.map (fun p => (p.2, p.1)))
  | none =>
    match lookupNode G u, lookupNode G v with
    | some sn, some en =>
      match sn.y, sn.x, en.y, en.x with
      | some sy, some sx, some ey, some ex => some [(sy, sx), (ey, ex)]
      | _, _, _, _ => none
    | _, _ => none

/-- The segment record built for one surviving edge (lines 230-283);
`none` models the `KeyError` the geometry branch can raise. -/
def mkSegment (G : Graph) (u v k : Nat) (d : EdgeData) : Option Segment :=
  (edgeGeometry G u v d).map fun geom =>
    { id := segId u v k
      startNodeId := nodeId u
      endNodeId := nodeId v
      lengthMeters := d.length.getD 0
      name := normalizeName d.name
      osmWayIds := normalizeOsmid d.osmid
      geometry := geom
      oneway := normalizeOneway d.oneway }

/-- The canonical undirected key `tuple(sorted([u, v])) + (key,)`
(line 225). -/
def canonKey (u v k : Nat) : (Nat × Nat) × Nat :=
  ((min u v, max u v), k)

/-- Canonical key of an edge tuple. -/
def ekey (e : Edge) : (Nat × Nat) × Nat :=
  canonKey e.1 e.2.1 e.2.2.1

/-- The edge loop of lines 222-283: skip an edge whose canonical key is in
`seen`, otherwise record the key and emit its segment.  `none` propagates
a raised `KeyError`. -/
def processEdges (G : Graph) (seen : List ((Nat × Nat) × Nat)) :
    List Edge → Option (List Segment)
  | [] => some []
  | (u, v, k, d) :: rest =>
    if canonKey u v k ∈ seen then
      processEdges G seen rest
    else
      match mkSegment G u v k d with
      | none => none
      | some s =>
        match processEdges G (canonKey u v k :: seen) rest with
        | none => none
        | some tail => some (s :: tail)

/-- Node projection (lines 213-219 and 303-309): coordinates default to
`0.0` via `.get`. -/
def projectNodes (ns : List (Nat × NodeData)) : List JsonNode :=
  ns.map fun p => { id := nodeId p.1, lat := p.2.y.getD 0, lon := p.2.x.getD 0 }

/-- Python's `min(xs, key=f)` with seed `x`: a left fold that replaces the
current best only on a strictly smaller key, so the first minimum wins. -/
def pyMin {α : Type} (f : α → ℚ) (x : α) (xs : List α) : α :=
  xs.foldl (fun best y => if f y < f best then y else best) x

/-- Squared Euclidean distance of a node to the centroid of `ns`
(lines 287-292). -/
def centroidKey (ns : List JsonNode) (n : JsonNode) : ℚ :=
  (n.lat - (ns.map JsonNode.lat).sum / (ns.length : ℚ)) ^ 2 +
    (n.lon - (ns.map JsonNode.lon).sum / (ns.length : ℚ)) ^ 2

/-- Starting-location selection (lines 286-300): `None` for an empty node
list, else the `min` by squared centroid distance.  The emitted dict
copies the chosen node's id/lat/lon, i.e. equals the chosen record. -/
def startingLocation : List JsonNode → Option JsonNode
  | [] => none
  | x :: xs => some (pyMin (centroidKey (x :: xs)) x xs)

/-- Full-graph edge export (lines 312-318): every directed edge, no
deduplication. -/
def fullGraphEdges (G : Graph) : List FullEdge :=
  G.edges.map fun e => { u := nodeId e.1, v := nodeId e.2.1, length := e.2.2.2.length.getD 0 }

/-- `graph_to_json` (lines 199-326) with both graphs supplied, as the CLI
always does (line 367). -/
def graph_to_json (Gs Gf : Graph) : Option Output :=
  let ns := projectNodes Gs.nodes
  match processEdges Gs [] Gs.edges with
  | none => none
  | some segs =>
    some { nodes := ns
           segments := segs
           startingLocation := startingLocation ns
           fullGraphNodes := projectNodes Gf.nodes
           fullGraphEdges := fullGraphEdges Gf }

/-! ### CLI driver `main` (lines 329-383)

The driver parses `--bbox`, checks the input file, loads the graphs
(external Graph Source), converts, and writes the output once at the end.
The external facts a run depends on — file existence, the Graph Source's
outcome, and whether the final `json.dump` raises — are abstracted as a
`World`. -/

/-- A value Python's `float(...)` can return: a finite number, a signed
infinity, or a NaN.  Only parse success matters to the driver — the
parsed bounding box is handed to the external Graph Source unchanged. -/
inductive PyFloatVal where
  | finite (q : ℚ)
  | infinite (neg : Bool)
  | nanVal
deriving DecidableEq, Repr

/-- Digit-run loop of `float(...)`: after a leading digit, underscores
are allowed singly and only between digits.  Accumulates the value and
the digit count. -/
def digitPartAux : Nat → Nat → List Char → Option (Nat × Nat)
  | acc, n, [] => some (acc, n)
  | _, _, ['_'] => none
  | acc, n, '_' :: c :: rest =>
    if c.isDigit then digitPartAux (acc * 10 + (c.toNat - 48)) (n + 1) rest else none
  | acc, n, c :: rest =>
    if c.isDigit then digitPartAux (acc * 10 + (c.toNat - 48)) (n + 1) rest else none

/-- `digit_part ::= digit (["_"] digit)*` of the `float(...)` grammar. -/
def digitPart (cs : List Char) : Option (Nat × Nat) :=
  match cs with
  | c :: rest => if c.isDigit then digitPartAux (c.toNat - 48) 1 rest else none
  | [] => none

/-- An exponent marker, `e` or `E`. -/
def isExpChar (c : Char) : Bool :=
  c == 'e' || c == 'E'

/-- `number ::= [digit_part] "." [digit_part] | digit_part ["."]` of the
`float(...)` grammar (at least one digit part present). -/
def parseMantissa (cs : List Char) : Option ℚ :=
  let ip := cs.takeWhile (fun c => c ≠ '.')
  match cs.dropWhile (fun c => c ≠ '.') with
  | [] => (digitPart ip).map (fun p => (p.1 : ℚ))
  | _ :: fp =>
    match ip, fp with
    | [], [] => none
    | [], _ => (digitPart fp).map (fun p => (p.1 : ℚ) / (10 : ℚ) ^ p.2)
    | _, [] => (digitPart ip).map (fun p => (p.1 : ℚ))
    | _, _ =>
      match digitPart ip, digitPart fp with
      | some i, some f => some ((i.1 : ℚ) + (f.1 : ℚ) / (10 : ℚ) ^ f.2)
      | _, _ => none

/-- `exponent ::= ("e" | "E") [sign] digit_part`, past the marker. -/
def parseExponent (cs : List Char) : Option Int :=
  match cs with
  | '+' :: rest => (digitPart rest).map (fun p => (p.1 : Int))
  | '-' :: rest => (digitPart rest).map (fun p => -(p.1 : Int))
  | _ => (digitPart cs).map (fun p => (p.1 : Int))

/-- `floatnumber ::= number [exponent]` of the `float(...)` grammar. -/
def parseFloatNumber (cs : List Char) : Option ℚ :=
  let mant := cs.takeWhile (fun c => !(isExpChar c))
  match cs.dropWhile (fun c => !(isExpChar c)) with
  | [] => parseMantissa mant
  | _ :: expPart =>
    match parseMantissa mant, parseExponent expPart with
    | some m, some e => some (m * (10 : ℚ) ^ e)
    | _, _ => none

/-- The body of `float(...)` after the optional sign: case-insensitive
`inf`, `infinity` or `nan`, else a decimal `floatnumber`. -/
def pyUnsigned (neg : Bool) (cs : List Char) : Option PyFloatVal :=
  let lcs := cs.map Char.toLower
  if lcs = ['i', 'n', 'f'] ∨ lcs = ['i', 'n', 'f', 'i', 'n', 'i', 't', 'y'] then
    some (.infinite neg)
  else if lcs = ['n', 'a', 'n'] then some .nanVal
  else (parseFloatNumber cs).map (fun q => .finite (if neg then -q else q))

/-- Python's builtin `float(s)`: optional surrounding whitespace, an
optional sign, then a decimal literal (optional fraction, exponent and
digit-group underscores) or `inf`/`infinity`/`nan`; `none` models a
raised `ValueError`. -/
def pyFloat (cs : List Char) : Option PyFloatVal :=
  let t := (((cs.dropWhile Char.isWhitespace).reverse).dropWhile Char.isWhitespace).reverse
  match t with
  | '-' :: rest => pyUnsigned true rest
  | '+' :: rest => pyUnsigned false rest
  | _ => pyUnsigned false t

/-- Python's `str.split(',')`: splits on every comma, keeping empty
pieces (`"".split(',') == ['']`). -/
def splitComma (cur : List Char) : List Char → List (List Char)
  | [] => [cur.reverse]
  | c :: rest =>
    if c = ',' then cur.reverse :: splitComma [] rest
    else splitComma (c :: cur) rest

/-- Bbox parsing (lines 345-352): `tuple(map(float, s.split(',')))`, then
`len(bbox) != 4` raises; both `ValueError`s are caught by the same
handler, so `none` means "exit 1". -/
def parseBbox (s : String) : Option (List PyFloatVal) :=
  match (splitComma [] s.data).mapM pyFloat with
  | none => none
  | some vs => if vs.length = 4 then some vs else none

/-- The external facts a run of `main` depends on: whether the input file
exists, what the Graph Source returns (`none` = it raised), and whether
the final `json.dump` raises — the attribute values can hold
non-JSON-serializable objects (e.g. numpy integers stored as `osmid` by
the PBF loader, line 153) and the stream write itself can fail. -/
structure World where
  fileExists : Bool
  loadResult : Option (Graph × Graph)
  writeFails : Bool

/-- What is on disk at the output path after a run: no file, a created
but incomplete file (`open(path, 'w')` ran and the dump aborted), or the
complete document. -/
inductive FileState where
  | absent
  | incomplete
  | complete (out : Output)
deriving DecidableEq, Repr

/-- Observable outcome of a run: the process exit code and the state of
the output file. -/
structure RunResult where
  exitCode : Nat
  outFile : FileState
deriving DecidableEq, Repr

/-- `main` (lines 329-383): bbox parse errors exit 1 (line 352); a
missing input file exits 1 (line 357); any exception from load, convert
or the final write is caught by the handler of lines 379-383 and exits 1.
The output file is created by `open(args.output_json, 'w')` at line 374
before `json.dump` streams into it, so a failure during the dump itself
leaves a created but incomplete file behind; the complete document is on
disk only when the whole pipeline succeeded. -/
def mainRun (w : World) (bboxArg : Option String) : RunResult :=
  let bboxOk : Bool :=
    match bboxArg with
    | none => true
    | some s => (parseBbox s).isSome
  if !bboxOk then ⟨1, .absent⟩
  else if !w.fileExists then ⟨1, .absent⟩
  else
    match w.loadResult with
    | none => ⟨1, .absent⟩
    | some (gs, gf) =>
      match graph_to_json gs gf with
      | none => ⟨1, .absent⟩
      | some out =>
        if w.writeFails then ⟨1, .incomplete⟩ else ⟨0, .complete out⟩

/-! ### Derived decompositions and example inputs -/

/-- The sublist of edges that survive the seen-set filter of lines
222-228: the first edge of each canonical key is kept, later repetitions
are dropped. -/
def dedupEdges (seen : List ((Nat × Nat) × Nat)) : List Edge → List Edge
  | [] => []
  | (u, v, k, d) :: rest =>
    if canonKey u v k ∈ seen then dedupEdges seen rest
    else (u, v, k, d) :: dedupEdges (canonKey u v k :: seen) rest

/-- Segment construction over a list of edges, without the seen-set
filter; `none` propagates a raised `KeyError`. -/
def segsOf (G : Graph) : List Edge → Option (List Segment)
  | [] => some []
  | e :: rest =>
    match mkSegment G e.1 e.2.1 e.2.2.1 e.2.2.2 with
    | none => none
    | some s =>
      match segsOf G rest with
      | none => none
      | some t => some (s :: t)

/-- An edge for which the geometry branch cannot raise: either it carries
an explicit geometry, or both endpoints are present with both coordinate
attributes. -/
def edgeTotalOk (G : Graph) (e : Edge) : Bool :=
  e.2.2.2.geometry.isSome ||
    (match lookupNode G e.1, lookupNode G e.2.1 with
     | some sn, some en => sn.y.isSome && sn.x.isSome && en.y.isSome && en.x.isSome
     | _, _ => false)

/-- The relation "segment `s` is the record built for edge `e`". -/
def SegOfEdge (G : Graph) (e : Edge) (s : Segment) : Prop :=
  mkSegment G e.1 e.2.1 e.2.2.1 e.2.2.2 = some s

/-- Example: the spec's scenario — nodes 1, 2, 3 at (0,0), (0,2), (2,0);
stored as `y` = lat, `x` = lon. -/
def exN : List (Nat × NodeData) :=
  [(1, ⟨some 0, some 0⟩), (2, ⟨some 2, some 0⟩), (3, ⟨some 0, some 2⟩)]

/-- Example: attributes of the scenario's edges — length 10, nothing
else. -/
def exD : EdgeData :=
  { EdgeData.empty with length := some 10 }

/-- Example: one pair of opposite directed edges between nodes 1 and 2. -/
def exE : List Edge :=
  [(1, 2, 0, exD), (2, 1, 0, exD)]

/-- Example graph for the spec's scenario. -/
def exG : Graph :=
  ⟨exN, exE⟩

/-- The single segment `graph_to_json` emits for `exG`. -/
def exSeg : Segment :=
  { id := segId 1 2 0
    startNodeId := nodeId 1
    endNodeId := nodeId 2
    lengthMeters := 10
    name := none
    osmWayIds := []
    geometry := [(0, 0), (0, 2)]
    oneway := false }

/-- The full output document `graph_to_json exG exG` produces. -/
def exOut : Output :=
  { nodes := [⟨nodeId 1, 0, 0⟩, ⟨nodeId 2, 0, 2⟩, ⟨nodeId 3, 2, 0⟩]
    segments := [exSeg]
    startingLocation := some ⟨nodeId 1, 0, 0⟩
    fullGraphNodes := [⟨nodeId 1, 0, 0⟩, ⟨nodeId 2, 0, 2⟩, ⟨nodeId 3, 2, 0⟩]
    fullGraphEdges := [⟨nodeId 1, nodeId 2, 10⟩, ⟨nodeId 2, nodeId 1, 10⟩] }

/-- Example: an edge whose explicit geometry is a degenerate (empty)
coordinate sequence. -/
def gEmptyGeom : Graph :=
  ⟨[(1, ⟨some 0, some 0⟩), (2, ⟨some 1, some 1⟩)],
   [(1, 2, 0, { EdgeData.empty with geometry := some [] })]⟩

/-- Example: a geometry-less edge whose endpoint nodes carry no
coordinate attributes at all. -/
def gNoCoords : Graph :=
  ⟨[(1, ⟨none, none⟩), (2, ⟨none, none⟩)],
   [(1, 2, 0, EdgeData.empty)]⟩

/-! ### Lemmas and claim theorems -/

/-- Concrete evaluation: the full output document for the scenario graph `exG`. -/
theorem exOut_eq : graph_to_json exG exG = some exOut := by
  simp [graph_to_json, processEdges, mkSegment, edgeGeometry, lookupNode, canonKey,
    projectNodes, startingLocation, pyMin, centroidKey, fullGraphEdges,
    normalizeOneway, normalizeOsmid, normalizeName, exG, exN, exE, exD, EdgeData.empty,
    exOut, exSeg]
  norm_num

/-- `sorted([u, v])` does not depend on the direction of the edge. -/
theorem canonKey_comm (u v k : Nat) : canonKey v u k = canonKey u v k := by
  simp [canonKey, Nat.min_comm, Nat.max_comm]

/-- The edge loop is segment construction over the first-per-canonical-key
sublist of the edges. -/
theorem processEdges_eq_segsOf (G : Graph) (seen : List ((Nat × Nat) × Nat)) (es : List Edge) :
    processEdges G seen es = segsOf G (dedupEdges seen es) := by
  induction es generalizing seen with
  | nil => rfl
  | cons e rest ih =>
    obtain ⟨u, v, k, d⟩ := e
    by_cases h : canonKey u v k ∈ seen
    · simp [processEdges, dedupEdges, h, ih]
    · simp only [processEdges, dedupEdges, if_neg h]
      cases hm : mkSegment G u v k d with
      | none => simp [segsOf, hm]
      | some s => simp [segsOf, hm, ih]

/-- Every surviving edge is an input edge. -/
theorem mem_dedupEdges {e : Edge} :
    ∀ {seen : List ((Nat × Nat) × Nat)} {es : List Edge},
      e ∈ dedupEdges seen es → e ∈ es := by
  intro seen es
  induction es generalizing seen with
  | nil => intro h; cases h
  | cons e0 rest ih =>
    obtain ⟨u, v, k, d⟩ := e0
    intro h
    simp only [dedupEdges] at h
    by_cases hk : canonKey u v k ∈ seen
    · rw [if_pos hk] at h
      exact List.mem_cons_of_mem _ (ih h)
    · rw [if_neg hk] at h
      rcases List.mem_cons.mp h with h1 | h2
      · exact h1 ▸ List.mem_cons_self _ _
      · exact List.mem_cons_of_mem _ (ih h2)

/-- No surviving edge has a canonical key that was already seen. -/
theorem dedupEdges_keys_fresh :
    ∀ {seen : List ((Nat × Nat) × Nat)} {es : List Edge} {κ : (Nat × Nat) × Nat},
      κ ∈ (dedupEdges seen es).map ekey → κ ∉ seen := by
  intro seen es
  induction es generalizing seen with
  | nil => intro κ h; cases h
  | cons e0 rest ih =>
    obtain ⟨u, v, k, d⟩ := e0
    intro κ h
    simp only [dedupEdges] at h
    by_cases hk : canonKey u v k ∈ seen
    · rw [if_pos hk] at h
      exact ih h
    · rw [if_neg hk] at h
      simp only [List.map_cons, List.mem_cons] at h
      rcases h with h1 | h2
      · intro hs
        exact hk (by simpa [ekey, h1] using (h1 ▸ hs : κ ∈ seen))
      · intro hs
        exact ih h2 (List.mem_cons_of_mem _ hs)

/-- The canonical keys of the surviving edges are pairwise distinct. -/
theorem dedupEdges_keys_nodup :
    ∀ {seen : List ((Nat × Nat) × Nat)} {es : List Edge},
      ((dedupEdges seen es).map ekey).Nodup := by
  intro seen es
  induction es generalizing seen with
  | nil => exact List.nodup_nil
  | cons e0 rest ih =>
    obtain ⟨u, v, k, d⟩ := e0
    simp only [dedupEdges]
    by_cases hk : canonKey u v k ∈ seen
    · rw [if_pos hk]; exact ih
    · rw [if_neg hk]
      simp only [List.map_cons, List.nodup_cons]
      refine ⟨fun hmem => ?_, ih⟩
      exact dedupEdges_keys_fresh hmem (List.mem_cons_self _ _)

/-- Every input edge's canonical key was either already seen or belongs to
some surviving edge. -/
theorem mem_key_dedupEdges :
    ∀ (seen : List ((Nat × Nat) × Nat)) {es : List Edge} {e : Edge}, e ∈ es →
      ekey e ∈ seen ∨ ekey e ∈ (dedupEdges seen es).map ekey := by
  intro seen es
  induction es generalizing seen with
  | nil => intro e h; cases h
  | cons e0 rest ih =>
    obtain ⟨u, v, k, d⟩ := e0
    intro e h
    simp only [dedupEdges]
    by_cases hk : canonKey u v k ∈ seen
    · rw [if_pos hk]
      rcases List.mem_cons.mp h with h1 | h2
      · left; rw [h1]; exact hk
      · exact ih seen h2
    · rw [if_neg hk]
      rcases List.mem_cons.mp h with h1 | h2
      · right; simp [h1, ekey]
      · rcases ih (canonKey u v k :: seen) h2 with hs | hd
        · rcases List.mem_cons.mp hs with h3 | h4
          · right
            simp only [List.map_cons, List.mem_cons]
            exact Or.inl h3
          · left; exact h4
        · right; exact List.mem_cons_of_mem _ hd

/-- Segment construction relates edges and emitted segments pointwise. -/
theorem segsOf_forall₂ (G : Graph) :
    ∀ {es : List Edge} {segs : List Segment}, segsOf G es = some segs →
      List.Forall₂ (SegOfEdge G) es segs := by
  intro es
  induction es with
  | nil =>
    intro segs h
    cases h
    exact List.Forall₂.nil
  | cons e rest ih =>
    intro segs h
    simp only [segsOf] at h
    cases hm : mkSegment G e.1 e.2.1 e.2.2.1 e.2.2.2 with
    | none => rw [hm] at h; cases h
    | some s =>
      rw [hm] at h
      cases ht : segsOf G rest with
      | none => rw [ht] at h; cases h
      | some t =>
        rw [ht] at h
        cases h
        exact List.Forall₂.cons hm (ih ht)

/-- Each member of the right list of a `Forall₂` has a related member on
the left. -/
theorem forall₂_mem_right {α β : Type} {R : α → β → Prop} :
    ∀ {l₁ : List α} {l₂ : List β}, List.Forall₂ R l₁ l₂ →
      ∀ b ∈ l₂, ∃ a ∈ l₁, R a b := by
  intro l₁ l₂ h
  induction h with
  | nil => intro b hb; cases hb
  | cons hR hF ih =>
    intro b hb
    rcases List.mem_cons.mp hb with h1 | h2
    · exact ⟨_, List.mem_cons_self _ _, h1 ▸ hR⟩
    · rcases ih b h2 with ⟨a, ha, hab⟩
      exact ⟨a, List.mem_cons_of_mem _ ha, hab⟩

/-- Segment construction succeeds when every edge's record builds. -/
theorem segsOf_isSome (G : Graph) :
    ∀ {es : List Edge}, (∀ e ∈ es, (mkSegment G e.1 e.2.1 e.2.2.1 e.2.2.2).isSome) →
      ∃ segs, segsOf G es = some segs := by
  intro es
  induction es with
  | nil => intro _; exact ⟨[], rfl⟩
  | cons e rest ih =>
    intro h
    have he := h e (List.mem_cons_self _ _)
    cases hm : mkSegment G e.1 e.2.1 e.2.2.1 e.2.2.2 with
    | none => rw [hm] at he; cases he
    | some s =>
      rcases ih (fun e' he' => h e' (List.mem_cons_of_mem _ he')) with ⟨t, ht⟩
      exact ⟨s :: t, by simp [segsOf, hm, ht]⟩

/-- Inversion: a successfully built segment is the record of lines
274-283 for some successfully extracted geometry. -/
theorem mkSegment_eq_some {G : Graph} {u v k : Nat} {d : EdgeData} {s : Segment}
    (h : mkSegment G u v k d = some s) :
    ∃ geom, edgeGeometry G u v d = some geom ∧
      s = { id := segId u v k
            startNodeId := nodeId u
            endNodeId := nodeId v
            lengthMeters := d.length.getD 0
            name := normalizeName d.name
            osmWayIds := normalizeOsmid d.osmid
            geometry := geom
            oneway := normalizeOneway d.oneway } := by
  unfold mkSegment at h
  cases hg : edgeGeometry G u v d with
  | none => rw [hg] at h; cases h
  | some geom =>
    rw [hg] at h
    exact ⟨geom, rfl, (Option.some.inj h).symm⟩

/-- Building a segment succeeds exactly when the edge has an explicit
geometry or both endpoints are present with both coordinates. -/
theorem mkSegment_isSome_iff {G : Graph} {u v k : Nat} {d : EdgeData} :
    (mkSegment G u v k d).isSome = edgeTotalOk G (u, v, k, d) := by
  unfold mkSegment edgeTotalOk edgeGeometry
  cases hg : d.geometry with
  | some coords => simp [hg]
  | none =>
    simp only [hg, Option.isSome_some, Option.isSome_none, Bool.false_or]
    cases h1 : lookupNode G u with
    | none => simp
    | some sn =>
      cases h2 : lookupNode G v with
      | none => simp
      | some en =>
        cases hy : sn.y <;> cases hx : sn.x <;> cases hey : en.y <;> cases hex : en.x <;> simp [hy, hx, hey, hex]

/-- Inversion of the synthesized-geometry branch (lines 237-243). -/
theorem edgeGeometry_none_case {G : Graph} {u v : Nat} {d : EdgeData}
    {geom : List (ℚ × ℚ)} (hg : d.geometry = none)
    (h : edgeGeometry G u v d = some geom) :
    ∃ sn en sy sx ey ex, lookupNode G u = some sn ∧ lookupNode G v = some en ∧
      sn.y = some sy ∧ sn.x = some sx ∧ en.y = some ey ∧ en.x = some ex ∧
      geom = [(sy, sx), (ey, ex)] := by
  unfold edgeGeometry at h
  rw [hg] at h
  cases h1 : lookupNode G u with
  | none => simp [h1] at h
  | some sn =>
    cases h2 : lookupNode G v with
    | none => simp [h1, h2] at h
    | some en =>
      simp only [h1, h2] at h
      cases hy : sn.y with
      | none => simp [hy] at h
      | some sy =>
        cases hx : sn.x with
        | none => simp [hy, hx] at h
        | some sx =>
          cases hey : en.y with
          | none => simp [hy, hx, hey] at h
          | some ey =>
            cases hex : en.x with
            | none => simp [hy, hx, hey, hex] at h
            | some ex =>
              simp only [hy, hx, hey, hex, Option.some.injEq] at h
              exact ⟨sn, en, sy, sx, ey, ex, rfl, rfl, hy, hx, hey, hex, h.symm⟩

/-- The `segments` field of a successful conversion is the edge loop's
result. -/
theorem graph_to_json_segments {Gs Gf : Graph} {out : Output}
    (h : graph_to_json Gs Gf = some out) :
    processEdges Gs [] Gs.edges = some out.segments := by
  unfold graph_to_json at h
  cases hp : processEdges Gs [] Gs.edges with
  | none => rw [hp] at h; cases h
  | some segs =>
    rw [hp] at h
    cases h
    rfl

/-- The remaining fields of a successful conversion. -/
theorem graph_to_json_shape {Gs Gf : Graph} {out : Output}
    (h : graph_to_json Gs Gf = some out) :
    out.nodes = projectNodes Gs.nodes ∧
      out.startingLocation = startingLocation (projectNodes Gs.nodes) ∧
      out.fullGraphNodes = projectNodes Gf.nodes ∧
      out.fullGraphEdges = fullGraphEdges Gf := by
  unfold graph_to_json at h
  cases hp : processEdges Gs [] Gs.edges with
  | none => rw [hp] at h; cases h
  | some segs =>
    rw [hp] at h
    cases h
    exact ⟨rfl, rfl, rfl, rfl⟩

/-- The conversion succeeds whenever the edge loop does. -/
theorem graph_to_json_isSome {Gs Gf : Graph}
    (h : (processEdges Gs [] Gs.edges).isSome) :
    ∃ out, graph_to_json Gs Gf = some out := by
  unfold graph_to_json
  cases hp : processEdges Gs [] Gs.edges with
  | none => rw [hp] at h; cases h
  | some segs => exact ⟨_, rfl⟩

/-- `min(xs, key=f)` returns an element of minimal key. -/
theorem pyMin_le {α : Type} (f : α → ℚ) :
    ∀ (xs : List α) (x : α),
      f (pyMin f x xs) ≤ f x ∧ ∀ y ∈ xs, f (pyMin f x xs) ≤ f y := by
  intro xs
  induction xs with
  | nil => intro x; exact ⟨le_refl _, fun y hy => absurd hy (List.not_mem_nil y)⟩
  | cons y xs ih =>
    intro x
    have hstep : pyMin f x (y :: xs) = pyMin f (if f y < f x then y else x) xs := rfl
    rcases ih (if f y < f x then y else x) with ⟨h1, h2⟩
    by_cases hc : f y < f x
    · rw [if_pos hc] at h1 h2
      refine ⟨?_, ?_⟩
      · rw [hstep, if_pos hc]
        exact le_trans h1 (le_of_lt hc)
      · intro z hz
        rw [hstep, if_pos hc]
        rcases List.mem_cons.mp hz with h3 | h4
        · rw [h3]; exact h1
        · exact h2 z h4
    · rw [if_neg hc] at h1 h2
      refine ⟨?_, ?_⟩
      · rw [hstep, if_neg hc]; exact h1
      · intro z hz
        rw [hstep, if_neg hc]
        rcases List.mem_cons.mp hz with h3 | h4
        · rw [h3]; exact le_trans h1 (le_of_not_lt hc)
        · exact h2 z h4

/-- `min(xs, key=f)` returns the first element of minimal key: everything
before it in the list has a strictly larger key. -/
theorem pyMin_first {α : Type} (f : α → ℚ) :
    ∀ (xs : List α) (x : α),
      ∃ l₁ l₂, x :: xs = l₁ ++ pyMin f x xs :: l₂ ∧
        ∀ a ∈ l₁, f (pyMin f x xs) < f a := by
  intro xs
  induction xs with
  | nil =>
    intro x
    exact ⟨[], [], rfl, fun a ha => absurd ha (List.not_mem_nil a)⟩
  | cons y xs ih =>
    intro x
    have hstep : pyMin f x (y :: xs) = pyMin f (if f y < f x then y else x) xs := rfl
    by_cases hc : f y < f x
    · rcases ih y with ⟨l₁, l₂, hsplit, hlt⟩
      refine ⟨x :: l₁, l₂, ?_, ?_⟩
      · rw [hstep, if_pos hc]
        exact congrArg (List.cons x) hsplit
      · intro a ha
        rw [hstep, if_pos hc]
        rcases List.mem_cons.mp ha with h3 | h4
        · rw [h3]
          exact lt_of_le_of_lt (pyMin_le f xs y).1 hc
        · exact hlt a h4
    · rcases ih x with ⟨l₁, l₂, hsplit, hlt⟩
      cases l₁ with
      | nil =>
        simp only [List.nil_append] at hsplit
        refine ⟨[], y :: xs, ?_, fun a ha => absurd ha (List.not_mem_nil a)⟩
        rw [hstep, if_neg hc]
        have hx : pyMin f x xs = x := (List.cons.inj hsplit).1.symm
        rw [hx]
        rfl
      | cons b l₁ =>
      -- hsplit : x :: xs = b :: (l₁ ++ pyMin f x xs :: l₂), so b = x
        simp only [List.cons_append] at hsplit
        have hb : x = b := (List.cons.inj hsplit).1
        have hxs : xs = l₁ ++ pyMin f x xs :: l₂ := (List.cons.inj hsplit).2
        refine ⟨x :: y :: l₁, l₂, ?_, ?_⟩
        · rw [hstep, if_neg hc]
          simp only [List.cons_append]
          rw [← hxs]
        · intro a ha
          rw [hstep, if_neg hc]
          have hmx : f (pyMin f x xs) < f x := by
            have := hlt b (List.mem_cons_self _ _)
            rw [← hb] at this
            exact this
          rcases List.mem_cons.mp ha with h3 | h4
          · rw [h3]; exact hmx
          · rcases List.mem_cons.mp h4 with h5 | h6
            · rw [h5]
              exact lt_of_lt_of_le hmx (le_of_not_lt hc)
            · exact hlt a (List.mem_cons_of_mem _ h6)

/-- The one-way vocabulary test, as list membership of the lowercased
string. -/
theorem onewayVocab_iff (s : String) :
    onewayVocab s = true ↔ pyLower s ∈ (["yes", "true", "1", "-1"] : List String) := by
  simp [onewayVocab, List.mem_cons, or_assoc]

/-- The per-element test holds exactly for boolean `True` and vocabulary
strings. -/
theorem onewayElemTrue_iff (o : OnewayElem) :
    onewayElemTrue o = true ↔
      (o = .boolVal true ∨
        ∃ s, o = .strVal s ∧ pyLower s ∈ (["yes", "true", "1", "-1"] : List String)) := by
  cases o with
  | boolVal b => cases b <;> simp [onewayElemTrue]
  | strVal s => simp [onewayElemTrue, onewayVocab_iff]
  | otherVal => simp [onewayElemTrue]

/-- Evaluation of the edge loop on one forward/reverse pair of directed
edges with a common key: only the first is emitted. -/
theorem processEdges_pair (G : Graph) (u v k : Nat) (d d' : EdgeData) :
    processEdges G [] [(u, v, k, d), (v, u, k, d')] =
      (mkSegment G u v k d).map (fun s => [s]) := by
  have hmem : canonKey v u k ∈ [canonKey u v k] := by
    rw [canonKey_comm]
    exact List.mem_singleton.mpr rfl
  simp only [processEdges, List.not_mem_nil, if_false, if_pos hmem]
  cases hm : mkSegment G u v k d <;> simp

/-- Claim C1: for every simplified-graph edge set, the emitted segments list
contains no two entries with equal canonical key (sorted endpoint pair plus
disambiguating key): the emitted segments correspond one-to-one, in order,
to a sublist of the edges whose canonical keys are pairwise distinct and
cover every input edge's canonical key — so a forward/reverse pair of
directed edges with the same key yields exactly one segment, whichever
direction is visited first. -/
theorem c1_segment_dedup (Gs Gf : Graph) (out : Output)
    (h : graph_to_json Gs Gf = some out) :
    ∃ survivors : List Edge,
      (∀ e ∈ survivors, e ∈ Gs.edges) ∧
      (survivors.map ekey).Nodup ∧
      (∀ e ∈ Gs.edges, ekey e ∈ survivors.map ekey) ∧
      List.Forall₂ (SegOfEdge Gs) survivors out.segments := by
  have hp := graph_to_json_segments h
  rw [processEdges_eq_segsOf] at hp
  refine ⟨dedupEdges [] Gs.edges, fun e he => mem_dedupEdges he,
    dedupEdges_keys_nodup, ?_, segsOf_forall₂ Gs hp⟩
  intro e he
  rcases mem_key_dedupEdges [] he with hs | hd
  · cases hs
  · exact hd

/-- Claim C9: segment completeness — the number of emitted segments equals
the number of distinct canonical keys among the simplified graph's edges;
no edge is skipped for any reason other than a repeated canonical key. -/
theorem c9_segment_count (Gs Gf : Graph) (out : Output)
    (h : graph_to_json Gs Gf = some out) :
    out.segments.length = (Gs.edges.map ekey).toFinset.card := by
  have hp := graph_to_json_segments h
  rw [processEdges_eq_segsOf] at hp
  have hlen : (dedupEdges [] Gs.edges).length = out.segments.length :=
    (segsOf_forall₂ Gs hp).length_eq
  have hnodup : ((dedupEdges [] Gs.edges).map ekey).Nodup :=
    dedupEdges_keys_nodup
  have hset : ((dedupEdges [] Gs.edges).map ekey).toFinset
      = (Gs.edges.map ekey).toFinset := by
    ext κ
    simp only [List.mem_toFinset, List.mem_map]
    constructor
    · rintro ⟨e, he, rfl⟩
      exact ⟨e, mem_dedupEdges he, rfl⟩
    · rintro ⟨e, he, rfl⟩
      rcases mem_key_dedupEdges [] he with hs | hd
      · cases hs
      · rcases List.mem_map.mp hd with ⟨e2, he2, hk⟩
        exact ⟨e2, he2, hk⟩
  calc out.segments.length
      = (dedupEdges [] Gs.edges).length := hlen.symm
    _ = ((dedupEdges [] Gs.edges).map ekey).length := (List.length_map _ _).symm
    _ = ((dedupEdges [] Gs.edges).map ekey).toFinset.card :=
        (List.toFinset_card_of_nodup hnodup).symm
    _ = (Gs.edges.map ekey).toFinset.card := by rw [hset]

/-- Claim C10: when forward and reverse directed edges `(u, v, key)` and
`(v, u, key)` both occur, the single emitted segment takes its id,
startNodeId, endNodeId and all attributes from whichever edge appears
first in edge iteration order (instantiating `u`, `v`, `d`, `d'` with the
swapped roles covers the reverse iteration order). -/
theorem c10_first_direction_wins (ns : List (Nat × NodeData)) (Gf : Graph)
    (u v k : Nat) (d d' : EdgeData) (out : Output)
    (h : graph_to_json ⟨ns, [(u, v, k, d), (v, u, k, d')]⟩ Gf = some out) :
    ∃ s, out.segments = [s] ∧
      mkSegment ⟨ns, [(u, v, k, d), (v, u, k, d')]⟩ u v k d = some s ∧
      s.id = segId u v k ∧ s.startNodeId = nodeId u ∧ s.endNodeId = nodeId v ∧
      s.lengthMeters = d.length.getD 0 ∧ s.name = normalizeName d.name ∧
      s.osmWayIds = normalizeOsmid d.osmid ∧ s.oneway = normalizeOneway d.oneway := by
  have hp := graph_to_json_segments h
  rw [show (⟨ns, [(u, v, k, d), (v, u, k, d')]⟩ : Graph).edges
      = [(u, v, k, d), (v, u, k, d')] from rfl, processEdges_pair] at hp
  cases hm : mkSegment (⟨ns, [(u, v, k, d), (v, u, k, d')]⟩ : Graph) u v k d with
  | none => rw [hm] at hp; cases hp
  | some s =>
    rw [hm] at hp
    have hout : out.segments = [s] := (Option.some.inj hp).symm
    rcases mkSegment_eq_some hm with ⟨geom, hgeom, hs⟩
    subst hs
    refine ⟨_, hout, ?_, ?_, ?_, ?_, ?_, ?_, ?_, ?_⟩ <;> rfl

/-- Claim C2: one-way normalization — a list normalizes to `true` iff some
element is boolean true or a vocabulary string (disjunction); a single
string is tested against the vocabulary (so "-1" yields true); an absent
attribute or a value of another (unrecognized) type yields `false`; and
the spec's concrete cases `[true, false]`, `[false, false]`, `"-1"`. -/
theorem c2_oneway_normalization :
    (∀ xs : List OnewayElem,
      normalizeOneway (some (.listVal xs)) = true ↔
        ∃ o ∈ xs, o = .boolVal true ∨
          ∃ s, o = .strVal s ∧ pyLower s ∈ (["yes", "true", "1", "-1"] : List String)) ∧
    (∀ s : String,
      normalizeOneway (some (.strVal s)) = true ↔
        pyLower s ∈ (["yes", "true", "1", "-1"] : List String)) ∧
    normalizeOneway none = false ∧
    normalizeOneway (some .otherVal) = false ∧
    normalizeOneway (some (.listVal [.boolVal true, .boolVal false])) = true ∧
    normalizeOneway (some (.listVal [.boolVal false, .boolVal false])) = false ∧
    normalizeOneway (some (.strVal "-1")) = true := by
  refine ⟨?_, ?_, rfl, rfl, rfl, rfl, ?_⟩
  · intro xs
    simp only [normalizeOneway, List.any_eq_true]
    constructor
    · rintro ⟨o, ho, hto⟩
      exact ⟨o, ho, (onewayElemTrue_iff o).mp hto⟩
    · rintro ⟨o, ho, hcase⟩
      exact ⟨o, ho, (onewayElemTrue_iff o).mpr hcase⟩
  · intro s
    simp only [normalizeOneway]
    exact onewayVocab_iff s
  · decide

/-- Claim C4: starting-location selection — the empty node list yields
`none` rather than an error; a non-empty list yields a member node of
minimal squared Euclidean distance to the arithmetic-mean centroid, ties
broken by the first minimal node in iteration order; and selection is a
deterministic function of the node list. -/
theorem c4_starting_location :
    startingLocation [] = none ∧
    (∀ ns : List JsonNode, ns ≠ [] →
      ∃ n, startingLocation ns = some n ∧ n ∈ ns ∧
        (∀ m ∈ ns, centroidKey ns n ≤ centroidKey ns m) ∧
        (∃ l₁ l₂, ns = l₁ ++ n :: l₂ ∧ ∀ m ∈ l₁, centroidKey ns n < centroidKey ns m)) ∧
    (∀ ns ms : List JsonNode, ns = ms → startingLocation ns = startingLocation ms) := by
  refine ⟨rfl, ?_, fun ns ms h => h ▸ rfl⟩
  intro ns hne
  cases ns with
  | nil => exact absurd rfl hne
  | cons x xs =>
    rcases pyMin_le (centroidKey (x :: xs)) xs x with ⟨h1, h2⟩
    rcases pyMin_first (centroidKey (x :: xs)) xs x with ⟨l₁, l₂, hsplit, hlt⟩
    refine ⟨pyMin (centroidKey (x :: xs)) x xs, rfl, ?_, ?_, ⟨l₁, l₂, hsplit, hlt⟩⟩
    · have hmem : pyMin (centroidKey (x :: xs)) x xs
          ∈ l₁ ++ pyMin (centroidKey (x :: xs)) x xs :: l₂ :=
        List.mem_append_right _ (List.mem_cons_self _ _)
      rw [← hsplit] at hmem
      exact hmem
    · intro m hm
      rcases List.mem_cons.mp hm with h3 | h4
      · rw [h3]; exact h1
      · exact h2 m h4

/-- Claim C5: full-graph edge export applies no deduplication — one
`(u, v, length)` entry per directed edge, in order, including parallel and
reverse duplicates; for a pair of opposite directed edges the simplified
export emits 1 segment while `fullGraphEdges` keeps every edge, and on the
spec's concrete 3-node scenario the counts are 1 and 2. -/
theorem c5_full_graph_no_dedup (ns : List (Nat × NodeData)) (Gf : Graph)
    (u v k : Nat) (d d' : EdgeData) (out : Output)
    (h : graph_to_json ⟨ns, [(u, v, k, d), (v, u, k, d')]⟩ Gf = some out) :
    (fullGraphEdges Gf).length = Gf.edges.length ∧
    List.Forall₂
      (fun e fe => fe = (⟨nodeId e.1, nodeId e.2.1, e.2.2.2.length.getD 0⟩ : FullEdge))
      Gf.edges (fullGraphEdges Gf) ∧
    out.segments.length = 1 ∧
    out.fullGraphEdges.length = Gf.edges.length ∧
    (graph_to_json exG exG).map (fun o => (o.segments.length, o.fullGraphEdges.length))
      = some (1, 2) := by
  have hfull : Gf.edges.length = (fullGraphEdges Gf).length :=
    (List.length_map _ _).symm
  refine ⟨hfull.symm, ?_, ?_, ?_, by decide⟩
  · unfold fullGraphEdges
    rw [List.forall₂_map_right_iff]
    exact (List.forall₂_same).mpr (fun e _ => rfl)
  · have hp := graph_to_json_segments h
    rw [show (⟨ns, [(u, v, k, d), (v, u, k, d')]⟩ : Graph).edges
        = [(u, v, k, d), (v, u, k, d')] from rfl, processEdges_pair] at hp
    cases hm : mkSegment (⟨ns, [(u, v, k, d), (v, u, k, d')]⟩ : Graph) u v k d with
    | none => rw [hm] at hp; cases hp
    | some s =>
      rw [hm] at hp
      rw [← Option.some.inj hp]
      rfl
  · rw [(graph_to_json_shape h).2.2.2]
    exact hfull.symm

/-- Claim C3, counterexample: an edge whose explicit geometry is an empty
coordinate sequence (a degenerate LineString) produces a segment whose
`geometry` is empty, so "geometry is always non-empty" fails as stated. -/
theorem c3_counterexample :
    (graph_to_json gEmptyGeom gEmptyGeom).map (fun o => o.segments.map Segment.geometry)
      = some [[]] := by
  decide

/-- Claim C3 (amended): for every emitted segment, an explicit geometry is
converted from (lon, lat) to (lat, lon) order preserving the point order;
with no explicit geometry the segment's geometry is exactly the 2-point
list of the start node's and end node's coordinates; geometry can be empty
only when an explicit geometry with an empty coordinate sequence was
supplied. -/
theorem c3_geometry_extraction (Gs Gf : Graph) (out : Output)
    (h : graph_to_json Gs Gf = some out) :
    ∀ s ∈ out.segments, ∃ u v k d, (u, v, k, d) ∈ Gs.edges ∧
      mkSegment Gs u v k d = some s ∧
      (∀ coords, d.geometry = some coords →
        s.geometry = coords.map (fun p => (p.2, p.1))) ∧
      (d.geometry = none → ∃ sn en sy sx ey ex,
        lookupNode Gs u = some sn ∧ lookupNode Gs v = some en ∧
        sn.y = some sy ∧ sn.x = some sx ∧ en.y = some ey ∧ en.x = some ex ∧
        s.geometry = [(sy, sx), (ey, ex)]) ∧
      (s.geometry = [] → d.geometry = some []) := by
  intro s hs
  have hp := graph_to_json_segments h
  rw [processEdges_eq_segsOf] at hp
  rcases forall₂_mem_right (segsOf_forall₂ Gs hp) s hs with ⟨e, he, hseg⟩
  refine ⟨e.1, e.2.1, e.2.2.1, e.2.2.2, mem_dedupEdges he, hseg, ?_, ?_, ?_⟩
  · intro coords hc
    rcases mkSegment_eq_some hseg with ⟨geom, hgeom, hrec⟩
    unfold edgeGeometry at hgeom
    rw [hc] at hgeom
    rw [hrec]
    exact (Option.some.inj hgeom).symm
  · intro hnone
    rcases mkSegment_eq_some hseg with ⟨geom, hgeom, hrec⟩
    rcases edgeGeometry_none_case hnone hgeom with
      ⟨sn, en, sy, sx, ey, ex, h1, h2, h3, h4, h5, h6, h7⟩
    exact ⟨sn, en, sy, sx, ey, ex, h1, h2, h3, h4, h5, h6, by rw [hrec]; exact h7⟩
  · intro hempty
    rcases mkSegment_eq_some hseg with ⟨geom, hgeom, hrec⟩
    have hgeo : geom = [] := by rw [hrec] at hempty; exact hempty
    subst hgeo
    cases hc : e.2.2.2.geometry with
    | none =>
      rcases edgeGeometry_none_case hc hgeom with
        ⟨sn, en, sy, sx, ey, ex, _, _, _, _, _, _, h7⟩
      cases h7
    | some coords =>
      unfold edgeGeometry at hgeom
      rw [hc] at hgeom
      have : coords.map (fun p => (p.2, p.1)) = [] := Option.some.inj hgeom
      rw [List.map_eq_nil_iff] at this
      rw [this]

/-- Claim C6, counterexample: a segment whose edge has no `osmid`
attribute is emitted with an empty `osmWayIds` list, so "non-empty for
every possible shape including absence" fails as stated. -/
theorem c6_counterexample :
    (graph_to_json exG exG).map (fun o => o.segments.map Segment.osmWayIds)
      = some [[]] := by
  decide

/-- Claim C6 (amended): way-id normalization wraps a scalar `osmid` in a
singleton list and keeps a list attribute as-is; an absent attribute
yields the default empty list, so `osmWayIds` is empty exactly when the
attribute is absent or an empty list. -/
theorem c6_osm_way_ids (G : Graph) (u v k : Nat) (d : EdgeData) (s : Segment)
    (h : mkSegment G u v k d = some s) :
    s.osmWayIds = normalizeOsmid d.osmid ∧
    (d.osmid = none → s.osmWayIds = []) ∧
    (∀ x, d.osmid = some (.scalar x) → s.osmWayIds = [x]) ∧
    (∀ xs, d.osmid = some (.listVal xs) → s.osmWayIds = xs) ∧
    (s.osmWayIds = [] ↔ d.osmid = none ∨ d.osmid = some (.listVal [])) := by
  rcases mkSegment_eq_some h with ⟨geom, hg, hs⟩
  subst hs
  refine ⟨rfl, ?_, ?_, ?_, ?_⟩
  · intro ho; simp [normalizeOsmid, ho]
  · intro x ho; simp [normalizeOsmid, ho]
  · intro xs ho; simp [normalizeOsmid, ho]
  · cases ho : d.osmid with
    | none => simp [normalizeOsmid, ho]
    | some a =>
      cases a with
      | scalar x => simp [normalizeOsmid, ho]
      | listVal xs => simp [normalizeOsmid, ho]

/-- Claim C7, counterexample: for an edge with no geometry attribute whose
endpoint nodes lack coordinate attributes, the transform raises `KeyError`
(modelled as `none`) instead of degrading to a default. -/
theorem c7_counterexample : graph_to_json gNoCoords gNoCoords = none := by
  decide

/-- Claim C7 (amended): the transform succeeds whenever every edge either
carries an explicit geometry or has both endpoints present with both
coordinate attributes; segment building fails exactly when that condition
fails; and malformed or missing length/name/oneway/osmid attributes always
degrade to the documented defaults (length 0.0, name absent, one-way
false, way-id list empty) rather than failing. -/
theorem c7_totality_amended :
    (∀ Gs Gf : Graph, (∀ e ∈ Gs.edges, edgeTotalOk Gs e = true) →
      ∃ out, graph_to_json Gs Gf = some out) ∧
    (∀ (G : Graph) (u v k : Nat) (d : EdgeData),
      (mkSegment G u v k d).isSome = edgeTotalOk G (u, v, k, d)) ∧
    (∀ (G : Graph) (u v k : Nat) (d : EdgeData) (s : Segment),
      mkSegment G u v k d = some s →
        (d.length = none → s.lengthMeters = 0) ∧
        (d.name = none → s.name = none) ∧
        (d.oneway = none → s.oneway = false) ∧
        (d.osmid = none → s.osmWayIds = [])) := by
  refine ⟨?_, fun G u v k d => mkSegment_isSome_iff, ?_⟩
  · intro Gs Gf hok
    have hall : ∀ e ∈ dedupEdges [] Gs.edges,
        (mkSegment Gs e.1 e.2.1 e.2.2.1 e.2.2.2).isSome := by
      intro e he
      rw [mkSegment_isSome_iff]
      exact hok e (mem_dedupEdges he)
    rcases segsOf_isSome Gs hall with ⟨segs, hsegs⟩
    apply graph_to_json_isSome
    rw [processEdges_eq_segsOf, hsegs]
    rfl
  · intro G u v k d s h
    rcases mkSegment_eq_some h with ⟨geom, hg, hs⟩
    subst hs
    refine ⟨?_, ?_, ?_, ?_⟩
    · intro hl; simp [hl]
    · intro hn; simp [normalizeName, hn]
    · intro ho; simp [normalizeOneway, ho]
    · intro ho; simp [normalizeOsmid, ho]

/-- Claim C8, counterexample: a run in which the bbox is fine, the input
file exists and loading and conversion succeed, but the final `json.dump`
raises, exits with status 1 and leaves a created, incomplete output file
behind — the file is opened for writing before the dump streams into
it — so "in every such failing run no partial output file is written"
fails as stated. -/
theorem c8_counterexample :
    mainRun ⟨true, some (exG, exG), true⟩ none = ⟨1, FileState.incomplete⟩ := by
  decide

/-- Claim C8 (amended): CLI failure semantics — a malformed bbox argument
(not exactly 4 comma-separated floats), a missing input file, a Graph
Source exception and a conversion exception each yield exit status 1 with
no output file written at all; a failure of the final serialization/write
itself also exits 1 but can leave a created, incomplete output file,
because the file is opened before the dump streams into it; the complete
document is on disk exactly for successful runs, which exit 0; in
particular bbox "1,2,3" exits 1 with no file for every world. -/
theorem c8_cli_failure :
    (∀ (w : World) (s : String), parseBbox s = none →
      mainRun w (some s) = ⟨1, FileState.absent⟩) ∧
    (∀ (w : World) (b : Option String), w.fileExists = false →
      mainRun w b = ⟨1, FileState.absent⟩) ∧
    (∀ (w : World) (b : Option String), w.loadResult = none →
      mainRun w b = ⟨1, FileState.absent⟩) ∧
    (∀ (w : World) (b : Option String) (gs gf : Graph),
      w.loadResult = some (gs, gf) → graph_to_json gs gf = none →
      mainRun w b = ⟨1, FileState.absent⟩) ∧
    (∀ (w : World) (b : Option String) (out : Output),
      (mainRun w b).outFile = FileState.complete out →
      (mainRun w b).exitCode = 0 ∧
      ∃ gs gf, w.loadResult = some (gs, gf) ∧ graph_to_json gs gf = some out) ∧
    (∀ (w : World) (b : Option String),
      (mainRun w b).outFile = FileState.incomplete →
      (mainRun w b).exitCode = 1 ∧ w.writeFails = true) ∧
    (∀ w : World, mainRun w (some "1,2,3") = ⟨1, FileState.absent⟩) := by
  have hbad : ∀ (w : World) (s : String), parseBbox s = none →
      mainRun w (some s) = ⟨1, FileState.absent⟩ := by
    intro w s hs
    simp [mainRun, hs]
  have hmaster : ∀ (w : World) (b : Option String),
      mainRun w b = ⟨1, FileState.absent⟩ ∨
      (mainRun w b = ⟨1, FileState.incomplete⟩ ∧ w.writeFails = true) ∨
      ∃ gs gf out, w.loadResult = some (gs, gf) ∧ graph_to_json gs gf = some out ∧
        mainRun w b = ⟨0, FileState.complete out⟩ := by
    intro w b
    cases b with
    | none =>
      cases hf : w.fileExists with
      | false => exact Or.inl (by simp [mainRun, hf])
      | true =>
        cases hl : w.loadResult with
        | none => exact Or.inl (by simp [mainRun, hf, hl])
        | some p =>
          obtain ⟨gs, gf⟩ := p
          cases hj : graph_to_json gs gf with
          | none => exact Or.inl (by simp [mainRun, hf, hl, hj])
          | some o =>
            cases hw : w.writeFails with
            | true => exact Or.inr (Or.inl ⟨by simp [mainRun, hf, hl, hj, hw], rfl⟩)
            | false =>
              exact Or.inr (Or.inr
                ⟨gs, gf, o, rfl, hj, by simp [mainRun, hf, hl, hj, hw]⟩)
    | some s =>
      cases hp : parseBbox s with
      | none => exact Or.inl (hbad w s hp)
      | some vs =>
        cases hf : w.fileExists with
        | false => exact Or.inl (by simp [mainRun, hp, hf])
        | true =>
          cases hl : w.loadResult with
          | none => exact Or.inl (by simp [mainRun, hp, hf, hl])
          | some p =>
            obtain ⟨gs, gf⟩ := p
            cases hj : graph_to_json gs gf with
            | none => exact Or.inl (by simp [mainRun, hp, hf, hl, hj])
            | some o =>
              cases hw : w.writeFails with
              | true => exact Or.inr (Or.inl ⟨by simp [mainRun, hp, hf, hl, hj, hw], rfl⟩)
              | false =>
                exact Or.inr (Or.inr
                  ⟨gs, gf, o, rfl, hj, by simp [mainRun, hp, hf, hl, hj, hw]⟩)
  have hcomplete : ∀ (w : World) (b : Option String) (out : Output),
      (mainRun w b).outFile = FileState.complete out →
      (mainRun w b).exitCode = 0 ∧
      ∃ gs gf, w.loadResult = some (gs, gf) ∧ graph_to_json gs gf = some out := by
    intro w b out hc
    rcases hmaster w b with h1 | ⟨h2, _⟩ | ⟨gs, gf, o, hl, hj, hm⟩
    · rw [h1] at hc; cases hc
    · rw [h2] at hc; cases hc
    · rw [hm] at hc
      cases hc
      exact ⟨by rw [hm], gs, gf, hl, hj⟩
  have hincomplete : ∀ (w : World) (b : Option String),
      (mainRun w b).outFile = FileState.incomplete →
      (mainRun w b).exitCode = 1 ∧ w.writeFails = true := by
    intro w b hc
    rcases hmaster w b with h1 | ⟨h2, hw⟩ | ⟨gs, gf, o, hl, hj, hm⟩
    · rw [h1] at hc; cases hc
    · exact ⟨by rw [h2], hw⟩
    · rw [hm] at hc; cases hc
  refine ⟨hbad, ?_, ?_, ?_, hcomplete, hincomplete, fun w => hbad w "1,2,3" (by decide)⟩
  · intro w b hf
    cases b with
    | none => simp [mainRun, hf]
    | some s =>
      cases hp : parseBbox s with
      | none => exact hbad w s hp
      | some vs => simp [mainRun, hp, hf]
  · intro w b hl
    cases b with
    | none => cases hf : w.fileExists <;> simp [mainRun, hf, hl]
    | some s =>
      cases hp : parseBbox s with
      | none => exact hbad w s hp
      | some vs => cases hf : w.fileExists <;> simp [mainRun, hp, hf, hl]
  · intro w b gs gf hl hj
    cases b with
    | none => cases hf : w.fileExists <;> simp [mainRun, hf, hl, hj]
    | some s =>
      cases hp : parseBbox s with
      | none => exact hbad w s hp
      | some vs => cases hf : w.fileExists <;> simp [mainRun, hp, hf, hl, hj]

/-- Witness for C1 at the concrete scenario graph. -/
theorem c1_witness :
    ∃ survivors : List Edge,
      (∀ e ∈ survivors, e ∈ exG.edges) ∧
      (survivors.map ekey).Nodup ∧
      (∀ e ∈ exG.edges, ekey e ∈ survivors.map ekey) ∧
      List.Forall₂ (SegOfEdge exG) survivors exOut.segments :=
  c1_segment_dedup exG exG exOut exOut_eq

/-- Witness for C9 at the concrete scenario graph. -/
theorem c9_witness :
    exOut.segments.length = (exG.edges.map ekey).toFinset.card :=
  c9_segment_count exG exG exOut exOut_eq

/-- Witness for C10 at the concrete scenario graph. -/
theorem c10_witness :
    ∃ s, exOut.segments = [s] ∧
      mkSegment exG 1 2 0 exD = some s ∧
      s.id = segId 1 2 0 ∧ s.startNodeId = nodeId 1 ∧ s.endNodeId = nodeId 2 ∧
      s.lengthMeters = exD.length.getD 0 ∧ s.name = normalizeName exD.name ∧
      s.osmWayIds = normalizeOsmid exD.osmid ∧ s.oneway = normalizeOneway exD.oneway :=
  c10_first_direction_wins exN exG 1 2 0 exD exD exOut exOut_eq

/-- Witness for C4 at the scenario's projected node list. -/
theorem c4_witness :
    ∃ n, startingLocation (projectNodes exN) = some n ∧ n ∈ projectNodes exN ∧
      (∀ m ∈ projectNodes exN,
        centroidKey (projectNodes exN) n ≤ centroidKey (projectNodes exN) m) ∧
      (∃ l₁ l₂, projectNodes exN = l₁ ++ n :: l₂ ∧
        ∀ m ∈ l₁, centroidKey (projectNodes exN) n < centroidKey (projectNodes exN) m) :=
  c4_starting_location.2.1 (projectNodes exN) (by decide)

/-- Witness for C5 at the concrete scenario graph. -/
theorem c5_witness :
    (fullGraphEdges exG).length = exG.edges.length ∧
    List.Forall₂
      (fun e fe => fe = (⟨nodeId e.1, nodeId e.2.1, e.2.2.2.length.getD 0⟩ : FullEdge))
      exG.edges (fullGraphEdges exG) ∧
    exOut.segments.length = 1 ∧
    exOut.fullGraphEdges.length = exG.edges.length ∧
    (graph_to_json exG exG).map (fun o => (o.segments.length, o.fullGraphEdges.length))
      = some (1, 2) :=
  c5_full_graph_no_dedup exN exG 1 2 0 exD exD exOut exOut_eq

/-- Witness for C6 at the scenario's surviving edge. -/
theorem c6_witness :
    exSeg.osmWayIds = normalizeOsmid exD.osmid ∧
    (exD.osmid = none → exSeg.osmWayIds = []) ∧
    (∀ x, exD.osmid = some (.scalar x) → exSeg.osmWayIds = [x]) ∧
    (∀ xs, exD.osmid = some (.listVal xs) → exSeg.osmWayIds = xs) ∧
    (exSeg.osmWayIds = [] ↔ exD.osmid = none ∨ exD.osmid = some (.listVal [])) :=
  c6_osm_way_ids exG 1 2 0 exD exSeg (by decide)

/-- Witness for C7 at the concrete scenario graph. -/
theorem c7_witness :
    ∃ out, graph_to_json exG exG = some out :=
  c7_totality_amended.1 exG exG (by decide)

/-- Witness for C8 at a concrete world and the bbox string of the spec's
scenario. -/
theorem c8_witness :
    mainRun ⟨true, none, false⟩ (some "1,2,3") = ⟨1, FileState.absent⟩ :=
  c8_cli_failure.1 ⟨true, none, false⟩ "1,2,3" (by decide)

/-- Witness for C3 at the scenario's emitted segment. -/
theorem c3_witness :
    ∃ u v k d, (u, v, k, d) ∈ exG.edges ∧
      mkSegment exG u v k d = some exSeg ∧
      (∀ coords, d.geometry = some coords →
        exSeg.geometry = coords.map (fun p => (p.2, p.1))) ∧
      (d.geometry = none → ∃ sn en sy sx ey ex,
        lookupNode exG u = some sn ∧ lookupNode exG v = some en ∧
        sn.y = some sy ∧ sn.x = some sx ∧ en.y = some ey ∧ en.x = some ex ∧
        exSeg.geometry = [(sy, sx), (ey, ex)]) ∧
      (exSeg.geometry = [] → d.geometry = some []) :=
  c3_geometry_extraction exG exG exOut exOut_eq exSeg (by decide)

end OsmLoader
